import Mathlib

/-!
Verification of the invocation-orchestration core of the persistent-assistant
repository (a Telegram/email to Claude-CLI bridge written in TypeScript).

The development shallowly embeds the relevant source functions:
  * `src/claude.ts`   — `runClaude` retry logic, `spawnClaude` close-handler
                        stream parsing, progress ticks, timeout fallback;
  * `src/queue.ts`    — the per-key FIFO task queue (`enqueue`/`processQueue`);
  * `src/session.ts`  — the per-topic session store;
  * `src/bot.ts`      — `splitMessage`;
  * the update-deduplication store (`isAlreadyProcessed`/`markProcessed`).

JavaScript strings are modelled as Lean `String`/`List Char`; `slice`,
`includes` and `lastIndexOf` are modelled by explicit char-list functions
defined below.  JSON values carried by tool invocations are irrelevant to
every property proved here, so parsed stream lines carry an arbitrary
payload type `α`, and `summarizeToolInput` (a display-only pure function)
is a parameter.
-/

/-- Models JavaScript `pat` being a leading segment of `s`
(the underlying check of `String.prototype.includes`). -/
def charsPre : List Char → List Char → Bool
  | [], _ => true
  | _ :: _, [] => false
  | a :: as, b :: bs => a == b && charsPre as bs

/-- Models scanning `s` for an occurrence of `pat` at any position. -/
def charsContains (pat : List Char) : List Char → Bool
  | [] => charsPre pat []
  | c :: t => charsPre pat (c :: t) || charsContains pat t

/-- Models JavaScript `s.includes(pat)`. -/
def strIncludes (s pat : String) : Bool :=
  charsContains pat.data s.data

/-- Models JavaScript `s.slice(0, n)` (by code units, here by chars). -/
def strTake (s : String) (n : Nat) : String :=
  String.mk (s.data.take n)

/-- Models JavaScript `s.slice(n)`. -/
def strDrop (s : String) (n : Nat) : String :=
  String.mk (s.data.drop n)

theorem charsPre_self_append (p r : List Char) : charsPre p (p ++ r) = true := by
  induction p with
  | nil => rfl
  | cons a as ih => simp [charsPre, ih]

theorem charsContains_of_charsPre {pat s : List Char} (h : charsPre pat s = true) :
    charsContains pat s = true := by
  cases s with
  | nil => simpa [charsContains] using h
  | cons c t => simp [charsContains, h]

theorem charsContains_of_append (pat l r : List Char) :
    charsContains pat (l ++ pat ++ r) = true := by
  induction l with
  | nil => exact charsContains_of_charsPre (by simpa using charsPre_self_append pat r)
  | cons c t ih => simp_all [charsContains]

theorem charsPre_eq_true_iff (p s : List Char) :
    charsPre p s = true ↔ ∃ r, s = p ++ r := by
  induction p generalizing s with
  | nil => simp [charsPre]
  | cons a as ih =>
    cases s with
    | nil =>
      simp only [charsPre]
      constructor
      · intro h; cases h
      · rintro ⟨r, hr⟩; cases hr
    | cons b bs =>
      simp only [charsPre, Bool.and_eq_true, beq_iff_eq, ih]
      constructor
      · rintro ⟨rfl, r, rfl⟩; exact ⟨r, rfl⟩
      · rintro ⟨r, hr⟩
        injection hr with h1 h2
        exact ⟨h1.symm, r, h2⟩

theorem charsContains_eq_true_iff (pat s : List Char) :
    charsContains pat s = true ↔ ∃ l r, s = l ++ pat ++ r := by
  induction s with
  | nil =>
    simp only [charsContains, charsPre_eq_true_iff]
    constructor
    · rintro ⟨r, hr⟩; exact ⟨[], r, by simpa using hr⟩
    · rintro ⟨l, r, hr⟩
      have : l = [] := by
        cases l with
        | nil => rfl
        | cons x xs => simp at hr
      subst this
      exact ⟨r, by simpa using hr⟩
  | cons c t ih =>
    simp only [charsContains, Bool.or_eq_true, charsPre_eq_true_iff, ih]
    constructor
    · rintro (⟨r, hr⟩ | ⟨l, r, hr⟩)
      · exact ⟨[], r, by simpa using hr⟩
      · exact ⟨c :: l, r, by simp [hr]⟩
    · rintro ⟨l, r, hr⟩
      cases l with
      | nil => exact Or.inl ⟨r, by simpa using hr⟩
      | cons x xs =>
        injection hr with h1 h2
        exact Or.inr ⟨xs, r, h2⟩

/-- A string that occurs inside another has, character by character,
at most the occurrence count of the host string. -/
theorem count_le_of_charsContains {pat s : List Char} (c : Char)
    (h : charsContains pat s = true) : pat.count c ≤ s.count c := by
  obtain ⟨l, r, rfl⟩ := (charsContains_eq_true_iff pat s).1 h
  simp [List.count_append]
  omega

/-! ### Data model of `src/claude.ts` -/

/-- One recorded capability (tool) invocation, as pushed by the close-handler
parse loop of `spawnClaude` (`src/claude.ts`). -/
structure ToolCall where
  name : String
  summary : String
deriving DecidableEq

/-- One denied capability invocation, as reported on the final stream record.
`α` is the payload type of the tool's JSON input (never inspected here). -/
structure PermissionDenial (α : Type) where
  tool_name : String
  tool_input : α

/-- The result of one subprocess invocation (`ClaudeResult` in `src/claude.ts`). -/
structure ClaudeResult (α : Type) where
  result : String
  sessionId : String
  durationMs : Nat
  isError : Bool
  toolCalls : List ToolCall
  permissionDenials : List (PermissionDenial α)

/-- One content block of an `assistant` stream record. An empty text block is
falsy in the JavaScript truthiness test and is modelled by `text ""`. -/
inductive ContentBlock (α : Type) where
  | toolUse (name : String) (input : α)
  | text (t : String)
  | other

/-- One line of the subprocess's NDJSON standard output, as classified by the
parse loop of `spawnClaude`.  `malformed` stands for a line on which
`JSON.parse` throws; `otherLine` for any parsed object of a type other than
`assistant` and `result`.  On a `resultLine`, absent JSON fields are modelled
by their JavaScript-falsy defaults (`""`, `0`, `false`, `[]`), matching the
`||`-coalescing in the source. -/
inductive StreamLine (α : Type) where
  | malformed
  | assistantLine (content : List (ContentBlock α))
  | resultLine (result : String) (session_id : String) (duration_ms : Nat)
      (is_error : Bool) (permission_denials : List (PermissionDenial α))
  | otherLine

/-! ### The close-handler parse loop of `spawnClaude` (`src/claude.ts` 188–227) -/

/-- The mutable locals of the close handler of `spawnClaude` while it walks
the NDJSON lines.  `progressToolCount` is the outer variable that the
progress-interval callback reads. -/
structure ParseState (α : Type) where
  toolCalls : List ToolCall
  assistantText : String
  finalResult : String
  sessionIdFromOutput : String
  durationMs : Nat
  isError : Bool
  permissionDenials : List (PermissionDenial α)
  progressToolCount : Nat

variable {α : Type}

/-- The initial values of the close handler's locals (`src/claude.ts` 190–197),
with `progressToolCount = 0` from line 154. -/
def initState (sessionId : String) : ParseState α :=
  { toolCalls := [], assistantText := "", finalResult := "",
    sessionIdFromOutput := sessionId, durationMs := 0, isError := false,
    permissionDenials := [], progressToolCount := 0 }

/-- One iteration of the inner `for (const block of obj.message.content)` loop
(`src/claude.ts` 206–217). -/
def processBlock (summarizeToolInput : String → α → String)
    (st : ParseState α) : ContentBlock α → ParseState α
  | .toolUse name input =>
      let toolCalls := st.toolCalls ++ [⟨name, summarizeToolInput name input⟩]
      { st with toolCalls := toolCalls, progressToolCount := toolCalls.length }
  | .text t =>
      if t ≠ "" then { st with assistantText := st.assistantText ++ t } else st
  | .other => st

/-- One iteration of the outer `for (const line of lines)` loop
(`src/claude.ts` 199–227).  `sessionId` is the argument of `spawnClaude`, the
fallback of `obj.session_id || sessionId`. -/
def processLine (summarizeToolInput : String → α → String) (sessionId : String)
    (st : ParseState α) : StreamLine α → ParseState α
  | .malformed => st
  | .assistantLine content => content.foldl (processBlock summarizeToolInput) st
  | .resultLine result session_id duration_ms is_error permission_denials =>
      { st with
        finalResult :=
          if result ≠ "" then result
          else if st.assistantText ≠ "" then st.assistantText
          else "(empty response)",
        sessionIdFromOutput := if session_id ≠ "" then session_id else sessionId,
        durationMs := duration_ms,
        isError := is_error,
        permissionDenials := permission_denials }
  | .otherLine => st

/-- The whole parse loop over the split stdout lines. -/
def parseLines (summarizeToolInput : String → α → String) (sessionId : String)
    (lines : List (StreamLine α)) : ParseState α :=
  lines.foldl (processLine summarizeToolInput sessionId) (initState sessionId)

/-- The message of `` `Claude exited with code ${code}` `` where a signal kill
leaves `code` as `null`. -/
def exitCodeMessage : Option Int → String
  | none => "Claude exited with code null"
  | some n => "Claude exited with code " ++ toString n

/-- The `proc.on("close", ...)` handler of `spawnClaude`
(`src/claude.ts` 170–268).  `code` is the subprocess exit status
(`none` = killed by signal), `stderrTrimmed` the trimmed stderr text, and
`lines` the nonempty lines of stdout; `stdout.trim()` is empty exactly when
`lines = []`. -/
def closeHandler (summarizeToolInput : String → α → String) (sessionId : String)
    (wasTimedOut : Bool) (code : Option Int) (stderrTrimmed : String)
    (lines : List (StreamLine α)) : ClaudeResult α :=
  if code ≠ some 0 ∧ lines.isEmpty then
    let errorMsg := if stderrTrimmed ≠ "" then stderrTrimmed else exitCodeMessage code
    { result := "Error: " ++ strTake errorMsg 4000, sessionId := sessionId,
      durationMs := 0, isError := true, toolCalls := [], permissionDenials := [] }
  else
    let st := parseLines summarizeToolInput sessionId lines
    if st.finalResult ≠ "" then
      { result := st.finalResult, sessionId := st.sessionIdFromOutput,
        durationMs := st.durationMs, isError := st.isError,
        toolCalls := st.toolCalls, permissionDenials := st.permissionDenials }
    else
      let fallbackResult :=
        if wasTimedOut ∧ st.assistantText ≠ "" then
          "(Timed out after 60 minutes — partial response below)\n\n"
            ++ strTake st.assistantText 3800
        else if wasTimedOut then
          "(Timed out after 60 minutes with no response text. Claude was likely busy with tool calls. You can ask \"what did you do?\" to get a summary.)"
        else if st.assistantText ≠ "" then strTake st.assistantText 4000
        else "(No response received from Claude. Check logs for details.)"
      { result := fallbackResult, sessionId := sessionId, durationMs := 0,
        isError := wasTimedOut || st.assistantText == "",
        toolCalls := st.toolCalls, permissionDenials := st.permissionDenials }

/-! ### `runClaude` (`src/claude.ts` 288–310) -/

/-- The retry logic of `runClaude`.  `spawnClaude n useResume` is the result
of the `n`-th spawn of the subprocess for this invocation when run with
`--resume` (`useResume = true`) or `--session-id` (`useResume = false`); the
session id, message, extra allowed tools and progress sink are the same for
every spawn of one invocation and are absorbed into the oracle.  The second
component counts how many times `spawnClaude` ran. -/
def runClaude (spawnClaude : Nat → Bool → ClaudeResult α)
    (isFirstMessage : Bool) : ClaudeResult α × Nat :=
  let result := spawnClaude 0 (!isFirstMessage)
  if result.isError && strIncludes result.result "already in use" then
    (spawnClaude 1 true, 2)
  else if result.isError && strIncludes result.result "No session found" then
    (spawnClaude 1 false, 2)
  else
    (result, 1)

/-- A simulated subprocess for the retry tests: the first spawn fails
create-mode with an "already in use" error, any retry succeeds. -/
def c2SpawnSimCreate : Nat → Bool → ClaudeResult Unit
  | 0, _ => ⟨"Error: that session id is already in use", "sid", 0, true, [], []⟩
  | _ + 1, _ => ⟨"resumed fine", "sid", 42, false, [], []⟩

/-- A simulated subprocess for the retry tests: the first spawn fails
resume-mode with a "No session found" error, any retry succeeds. -/
def c2SpawnSimResume : Nat → Bool → ClaudeResult Unit
  | 0, _ => ⟨"Error: No session found with session ID sid", "sid", 0, true, [], []⟩
  | _ + 1, _ => ⟨"created fine", "sid", 42, false, [], []⟩

/-- C2: per invocation `runClaude` performs at most one retry (never more than
two spawns); if the create-mode first spawn fails with an error text
containing "already in use" it retries exactly once in resume mode; if the
resume-mode first spawn fails with an error text containing "No session
found" (and not the create-mode marker) it retries exactly once in create
mode, and the retry's result is returned as is. -/
theorem c2_retry_once (spawnClaude : Nat → Bool → ClaudeResult α) :
    (∀ isFirstMessage, (runClaude spawnClaude isFirstMessage).2 ≤ 2) ∧
    ((spawnClaude 0 false).isError = true →
      strIncludes (spawnClaude 0 false).result "already in use" = true →
      runClaude spawnClaude true = (spawnClaude 1 true, 2)) ∧
    ((spawnClaude 0 true).isError = true →
      strIncludes (spawnClaude 0 true).result "No session found" = true →
      strIncludes (spawnClaude 0 true).result "already in use" = false →
      runClaude spawnClaude false = (spawnClaude 1 false, 2)) := by
  refine ⟨fun isFirstMessage => ?_, fun h1 h2 => ?_, fun h1 h2 h3 => ?_⟩
  · unfold runClaude
    dsimp only
    split
    · exact Nat.le_refl 2
    · split
      · exact Nat.le_refl 2
      · exact Nat.le_succ 1
  · unfold runClaude
    simp [h1, h2]
  · unfold runClaude
    simp [h1, h2, h3]

/-- Witness for `c2_retry_once` on the two simulated subprocesses. -/
theorem c2_retry_once_witness :
    runClaude c2SpawnSimCreate true = (c2SpawnSimCreate 1 true, 2) ∧
    (runClaude c2SpawnSimCreate true).2 ≤ 2 ∧
    runClaude c2SpawnSimResume false = (c2SpawnSimResume 1 false, 2) :=
  ⟨(c2_retry_once c2SpawnSimCreate).2.1 (by decide) (by decide),
   (c2_retry_once c2SpawnSimCreate).1 true,
   (c2_retry_once c2SpawnSimResume).2.2 (by decide) (by decide) (by decide)⟩

/-! ### Streaming phase of `spawnClaude` (`src/claude.ts` 140–168) -/

/-- An observable event while the subprocess runs: a stdout `data` event
carrying some NDJSON lines, or a firing of the 5-minute progress interval. -/
inductive StreamEv (α : Type) where
  | data (lines : List (StreamLine α))
  | tick

/-- The state of `spawnClaude` while the subprocess runs: the accumulated
stdout (as lines), the `progressToolCount` variable of line 154, and the
`toolCallCount` values handed to `onProgress` so far.  In the source, stdout
`data` events only append to the buffer (line 145); the stream is parsed —
and `progressToolCount` is first written — only inside the `close` handler
(lines 199–227), after the progress interval has been cleared (line 171). -/
structure StreamState (α : Type) where
  bufferedLines : List (StreamLine α)
  progressToolCount : Nat
  reports : List Nat

/-- One streaming-phase event of `spawnClaude`. -/
def stepEvent (st : StreamState α) : StreamEv α → StreamState α
  | .data ls => { st with bufferedLines := st.bufferedLines ++ ls }
  | .tick => { st with reports := st.reports ++ [st.progressToolCount] }

/-- The streaming phase of one spawn, from process start to (but excluding)
the `close` event. -/
def runStreaming (events : List (StreamEv α)) : StreamState α :=
  events.foldl stepEvent ⟨[], 0, []⟩

/-- Counts the capability invocations carried by a list of stream lines. -/
def toolUseCount (lines : List (StreamLine α)) : Nat :=
  (lines.map fun l =>
    match l with
    | .assistantLine content =>
        (content.filter fun b =>
          match b with
          | .toolUse _ _ => true
          | _ => false).length
    | _ => 0).sum

theorem reports_all_zero_aux (events : List (StreamEv α)) (st : StreamState α)
    (hc : st.progressToolCount = 0) (hr : st.reports.all (· == 0) = true) :
    (events.foldl stepEvent st).reports.all (· == 0) = true := by
  induction events generalizing st with
  | nil => exact hr
  | cons ev rest ih =>
    cases ev with
    | data ls => exact ih _ hc hr
    | tick =>
      refine ih _ hc ?_
      simp [stepEvent, hc, List.all_append, hr]

/-- C3 (code bug): the caller-supplied progress sink never observes the
running count of capability invocations.  `progressToolCount` is written only
inside the `close` handler's parse loop (`src/claude.ts` 212), which runs
after the progress interval was cleared (line 171), so every value handed to
`onProgress` during the run is the initial `0`.  In particular, in a run
whose stream has already carried one tool invocation when a tick fires, the
sink receives `toolCallCount = 0`, not `1`. -/
theorem c3_progress_count_always_zero :
    (∀ (events : List (StreamEv Unit)),
      (runStreaming events).reports.all (· == 0) = true) ∧
    (runStreaming [StreamEv.data [StreamLine.assistantLine
        [ContentBlock.toolUse "Read" ()]], StreamEv.tick]).reports = [0] ∧
    toolUseCount [StreamLine.assistantLine
        [ContentBlock.toolUse "Read" ()] (α := Unit)] = 1 :=
  ⟨fun events => reports_all_zero_aux events ⟨[], 0, []⟩ rfl rfl, rfl, rfl⟩

/-! ### Malformed-line tolerance (`src/claude.ts` 199–227, C8) -/

/-- The capability invocations recorded from one `assistant` record's blocks. -/
def blockCalls (summarizeToolInput : String → α → String)
    (content : List (ContentBlock α)) : List ToolCall :=
  (content.map fun b =>
    match b with
    | ContentBlock.toolUse n i => [(⟨n, summarizeToolInput n i⟩ : ToolCall)]
    | _ => []).flatten

/-- The capability invocations recorded from a list of stream lines. -/
def lineCalls (summarizeToolInput : String → α → String)
    (lines : List (StreamLine α)) : List ToolCall :=
  (lines.map fun l =>
    match l with
    | StreamLine.assistantLine content => blockCalls summarizeToolInput content
    | _ => []).flatten

theorem foldl_processBlock_toolCalls (sz : String → α → String)
    (content : List (ContentBlock α)) (st : ParseState α) :
    (content.foldl (processBlock sz) st).toolCalls
      = st.toolCalls ++ blockCalls sz content := by
  induction content generalizing st with
  | nil => simp [blockCalls]
  | cons b bs ih =>
    cases b with
    | toolUse n i => simp [processBlock, ih, blockCalls]
    | text t =>
      by_cases ht : t ≠ "" <;> simp [processBlock, ht, ih, blockCalls]
    | other => simp [processBlock, ih, blockCalls]

theorem foldl_processLine_toolCalls (sz : String → α → String) (sid : String)
    (lines : List (StreamLine α)) (st : ParseState α) :
    (lines.foldl (processLine sz sid) st).toolCalls
      = st.toolCalls ++ lineCalls sz lines := by
  induction lines generalizing st with
  | nil => simp [lineCalls]
  | cons l ls ih =>
    cases l with
    | malformed => simp [processLine, ih, lineCalls]
    | assistantLine content =>
      simp [processLine, ih, lineCalls, foldl_processBlock_toolCalls]
    | resultLine r s d e p => simp [processLine, ih, lineCalls]
    | otherLine => simp [processLine, ih, lineCalls]

theorem parseLines_skip_malformed (sz : String → α → String) (sid : String)
    (l1 l2 : List (StreamLine α)) :
    parseLines sz sid (l1 ++ StreamLine.malformed :: l2)
      = parseLines sz sid (l1 ++ l2) := by
  unfold parseLines
  rw [List.foldl_append, List.foldl_append, List.foldl_cons]
  rfl

theorem closeHandler_eq_of_parseLines_eq (sz : String → α → String)
    (sid : String) (wasTimedOut : Bool) (code : Option Int) (stderrTrimmed : String)
    {l l' : List (StreamLine α)} (hl : l ≠ []) (hl' : l' ≠ [])
    (hp : parseLines sz sid l = parseLines sz sid l') :
    closeHandler sz sid wasTimedOut code stderrTrimmed l
      = closeHandler sz sid wasTimedOut code stderrTrimmed l' := by
  have h1 : l.isEmpty = false := by
    cases l with
    | nil => exact absurd rfl hl
    | cons a t => rfl
  have h2 : l'.isEmpty = false := by
    cases l' with
    | nil => exact absurd rfl hl'
    | cons a t => rfl
  unfold closeHandler
  rw [hp]
  have hc1 : ¬(code ≠ some 0 ∧ l.isEmpty = true) := by simp [h1]
  have hc2 : ¬(code ≠ some 0 ∧ l'.isEmpty = true) := by simp [h2]
  rw [if_neg hc1, if_neg hc2]

/-- C8: a malformed (unparseable) line interleaved between two well-formed
activity records is discarded and nothing else: the whole turn's result is
identical to the run without the malformed line, and the recorded capability
invocations are exactly those of the well-formed records before and after it,
in order. -/
theorem c8_malformed_line_discarded (sz : String → α → String) (sid : String)
    (wasTimedOut : Bool) (code : Option Int) (stderrTrimmed : String)
    (l1a l1b l2a l2b : List (StreamLine α))
    (bsA bsB : List (ContentBlock α)) :
    closeHandler sz sid wasTimedOut code stderrTrimmed
        ((l1a ++ StreamLine.assistantLine bsA :: l1b)
          ++ StreamLine.malformed :: (l2a ++ StreamLine.assistantLine bsB :: l2b))
      = closeHandler sz sid wasTimedOut code stderrTrimmed
        ((l1a ++ StreamLine.assistantLine bsA :: l1b)
          ++ (l2a ++ StreamLine.assistantLine bsB :: l2b)) ∧
    (parseLines sz sid
        ((l1a ++ StreamLine.assistantLine bsA :: l1b)
          ++ StreamLine.malformed :: (l2a ++ StreamLine.assistantLine bsB :: l2b))).toolCalls
      = lineCalls sz (l1a ++ StreamLine.assistantLine bsA :: l1b)
          ++ lineCalls sz (l2a ++ StreamLine.assistantLine bsB :: l2b) := by
  constructor
  · exact closeHandler_eq_of_parseLines_eq sz sid wasTimedOut code stderrTrimmed
      (by simp) (by simp)
      (parseLines_skip_malformed sz sid _ _)
  · rw [parseLines_skip_malformed]
    unfold parseLines
    rw [foldl_processLine_toolCalls]
    simp [initState, lineCalls]

/-! ### Timeout fallback (`src/claude.ts` 162–168 and 243–266, C4) -/

/-- Whether any stdout line is a `result` record. -/
def hasResultLine (lines : List (StreamLine α)) : Bool :=
  lines.any fun l =>
    match l with
    | StreamLine.resultLine _ _ _ _ _ => true
    | _ => false

theorem foldl_processBlock_finalResult (sz : String → α → String)
    (content : List (ContentBlock α)) (st : ParseState α) :
    (content.foldl (processBlock sz) st).finalResult = st.finalResult := by
  induction content generalizing st with
  | nil => rfl
  | cons b bs ih =>
    cases b with
    | toolUse n i => simp [processBlock, ih]
    | text t => by_cases ht : t ≠ "" <;> simp [processBlock, ht, ih]
    | other => simp [processBlock, ih]

theorem foldl_processLine_finalResult (sz : String → α → String) (sid : String)
    (lines : List (StreamLine α)) (st : ParseState α)
    (hnr : hasResultLine lines = false) :
    (lines.foldl (processLine sz sid) st).finalResult = st.finalResult := by
  induction lines generalizing st with
  | nil => rfl
  | cons l ls ih =>
    simp only [hasResultLine, List.any_cons, Bool.or_eq_false_iff] at hnr
    cases l with
    | malformed => exact ih st hnr.2
    | assistantLine content =>
      rw [List.foldl_cons, ih _ hnr.2]
      exact foldl_processBlock_finalResult sz content st
    | resultLine r s d e p => simp at hnr
    | otherLine => exact ih st hnr.2

theorem parseLines_finalResult_empty (sz : String → α → String) (sid : String)
    (lines : List (StreamLine α)) (hnr : hasResultLine lines = false) :
    (parseLines sz sid lines).finalResult = "" :=
  foldl_processLine_finalResult sz sid lines (initState sid) hnr

/-- Characterization of the close handler for a timed-out run that produced
no final record and does not hit the nonzero-exit-with-empty-stdout branch. -/
theorem closeHandler_timedOut_no_result (sz : String → α → String) (sid : String)
    (code : Option Int) (stderrTrimmed : String) (lines : List (StreamLine α))
    (hnr : hasResultLine lines = false)
    (hne : ¬(code ≠ some 0 ∧ lines.isEmpty = true)) :
    closeHandler sz sid true code stderrTrimmed lines =
      { result :=
          if (parseLines sz sid lines).assistantText ≠ "" then
            "(Timed out after 60 minutes — partial response below)\n\n"
              ++ strTake (parseLines sz sid lines).assistantText 3800
          else
            "(Timed out after 60 minutes with no response text. Claude was likely busy with tool calls. You can ask \"what did you do?\" to get a summary.)",
        sessionId := sid, durationMs := 0, isError := true,
        toolCalls := (parseLines sz sid lines).toolCalls,
        permissionDenials := (parseLines sz sid lines).permissionDenials } := by
  have hfr : (parseLines sz sid lines).finalResult = "" :=
    parseLines_finalResult_empty sz sid lines hnr
  unfold closeHandler
  rw [if_neg hne]
  simp only [hfr]
  by_cases hf : (parseLines sz sid lines).assistantText = ""
  · simp [hf]
  · simp [hf]

/-- C4 (amended): for every run forcibly terminated by the hard safety
timeout that did not emit a final record, the returned result has
`isError = true`.  If free-text fragments were accumulated, the result text
is the truncation marker followed by the first 3800 characters of the
fragments — so it contains that 3800-character initial segment (all of the
fragments when they fit) and the timed-out marker.  If no fragments were
accumulated and the process either produced some output or exited with
status 0, the text is the generic timed-out message; if it produced no
output at all and exited nonzero, the text is the generic exit-status
message built from stderr. -/
theorem c4_timeout_partial_result (sz : String → α → String) (sid : String)
    (code : Option Int) (stderrTrimmed : String) (lines : List (StreamLine α))
    (hnr : hasResultLine lines = false) :
    (closeHandler sz sid true code stderrTrimmed lines).isError = true ∧
    ((parseLines sz sid lines).assistantText ≠ "" →
      (closeHandler sz sid true code stderrTrimmed lines).result
        = "(Timed out after 60 minutes — partial response below)\n\n"
            ++ strTake (parseLines sz sid lines).assistantText 3800 ∧
      strIncludes (closeHandler sz sid true code stderrTrimmed lines).result
        (strTake (parseLines sz sid lines).assistantText 3800) = true ∧
      strIncludes (closeHandler sz sid true code stderrTrimmed lines).result
        "Timed out after 60 minutes" = true) ∧
    ((parseLines sz sid lines).assistantText = "" → (lines ≠ [] ∨ code = some 0) →
      (closeHandler sz sid true code stderrTrimmed lines).result
        = "(Timed out after 60 minutes with no response text. Claude was likely busy with tool calls. You can ask \"what did you do?\" to get a summary.)") ∧
    (lines = [] → code ≠ some 0 →
      (closeHandler sz sid true code stderrTrimmed lines).result
        = "Error: " ++ strTake
            (if stderrTrimmed ≠ "" then stderrTrimmed else exitCodeMessage code) 4000) := by
  by_cases hearly : code ≠ some 0 ∧ lines.isEmpty = true
  · have hlines : lines = [] := by
      cases lines with
      | nil => rfl
      | cons a t => simp at hearly
    subst hlines
    have hch : closeHandler sz sid true code stderrTrimmed ([] : List (StreamLine α))
        = { result := "Error: " ++ strTake
              (if stderrTrimmed ≠ "" then stderrTrimmed else exitCodeMessage code) 4000,
            sessionId := sid, durationMs := 0, isError := true,
            toolCalls := [], permissionDenials := [] } := by
      unfold closeHandler
      rw [if_pos hearly]
    refine ⟨by rw [hch], ?_, ?_, fun _ _ => by rw [hch]⟩
    · intro hf
      exact absurd (rfl : (parseLines sz sid ([] : List (StreamLine α))).assistantText = "") hf
    · intro _ hor
      rcases hor with h | h
      · exact absurd rfl h
      · exact absurd h hearly.1
  · have hch := closeHandler_timedOut_no_result sz sid code stderrTrimmed lines hnr hearly
    refine ⟨by rw [hch], fun hf => ?_, fun hf _ => ?_, fun hl hc => ?_⟩
    · have hres : (closeHandler sz sid true code stderrTrimmed lines).result
          = "(Timed out after 60 minutes \u2014 partial response below)\n\n"
            ++ strTake (parseLines sz sid lines).assistantText 3800 := by
        rw [hch]
        exact if_pos hf
      refine ⟨hres, ?_, ?_⟩
      · rw [hres]
        unfold strIncludes strTake
        have : ("(Timed out after 60 minutes — partial response below)\n\n"
            ++ String.mk ((parseLines sz sid lines).assistantText.data.take 3800)).data
            = "(Timed out after 60 minutes — partial response below)\n\n".data
              ++ ((parseLines sz sid lines).assistantText.data.take 3800) ++ [] := by
          simp [String.data_append]
        rw [this]
        exact charsContains_of_append _ _ _
      · rw [hres]
        unfold strIncludes
        have hdecomp : "(Timed out after 60 minutes — partial response below)\n\n".data
            = ['('] ++ "Timed out after 60 minutes".data
              ++ " — partial response below)\n\n".data := by decide
        have : ("(Timed out after 60 minutes — partial response below)\n\n"
            ++ strTake (parseLines sz sid lines).assistantText 3800).data
            = ['('] ++ "Timed out after 60 minutes".data
              ++ (" — partial response below)\n\n".data
                  ++ (strTake (parseLines sz sid lines).assistantText 3800).data) := by
          rw [String.data_append, hdecomp]
          simp
        rw [this]
        exact charsContains_of_append _ _ _
    · rw [hch]
      simp [hf]
    · subst hl
      exact absurd hearly (by simp [hc])

/-- The accumulated free text used to refute the literal containment claim:
3801 copies of `z`, one more than the 3800-character slice kept by the
timeout fallback. -/
def c4Frag : String := String.mk (List.replicate 3801 'z')

/-- A timed-out run whose stream carried a single long free-text fragment
and no final record. -/
def c4Lines : List (StreamLine Unit) := [StreamLine.assistantLine [ContentBlock.text c4Frag]]

/-- A trivial summarizer for the concrete runs (no tool is invoked). -/
def c4Summarize : String → Unit → String := fun _ _ => ""

/-- C4 (counterexample to the claim as stated): on a timed-out run that
accumulated 3801 characters of free text, the returned error result does
not contain the accumulated fragments — only their first 3800 characters
survive the slice at `src/claude.ts` 250. -/
theorem c4_counterexample :
    (parseLines c4Summarize "sid" c4Lines).assistantText = c4Frag ∧
    (closeHandler c4Summarize "sid" true (some 0) "" c4Lines).isError = true ∧
    strIncludes (closeHandler c4Summarize "sid" true (some 0) "" c4Lines).result c4Frag
      = false := by
  have hlen : c4Frag.data.length = 3801 := by
    rw [show c4Frag.data = List.replicate 3801 'z' from rfl, List.length_replicate]
  have hfragne : c4Frag ≠ "" := by
    intro h
    rw [h] at hlen
    exact absurd hlen (by decide)
  have hparse : (parseLines c4Summarize "sid" c4Lines).assistantText = c4Frag := by
    show (processBlock c4Summarize (initState "sid") (ContentBlock.text c4Frag)).assistantText
      = c4Frag
    simp only [processBlock]
    rw [if_pos hfragne]
    rfl
  have hnr : hasResultLine c4Lines = false := rfl
  have hch := closeHandler_timedOut_no_result c4Summarize "sid" (some 0) "" c4Lines hnr
    (by simp [c4Lines])
  have hres : (closeHandler c4Summarize "sid" true (some 0) "" c4Lines).result
      = "(Timed out after 60 minutes — partial response below)\n\n"
        ++ strTake c4Frag 3800 := by
    rw [hch]
    dsimp only
    rw [hparse, if_pos hfragne]
  have hresdata : (closeHandler c4Summarize "sid" true (some 0) "" c4Lines).result.data
      = "(Timed out after 60 minutes — partial response below)\n\n".data
        ++ List.replicate 3800 'z' := by
    have htake : (strTake c4Frag 3800).data = List.replicate 3800 'z' := by
      show List.take 3800 (List.replicate 3801 'z') = List.replicate 3800 'z'
      rw [List.take_replicate]
      norm_num
    rw [hres, String.data_append, htake]
  refine ⟨hparse, by rw [hch], ?_⟩
  have hnotc : charsContains c4Frag.data
      (closeHandler c4Summarize "sid" true (some 0) "" c4Lines).result.data ≠ true := by
    intro hcc
    have hcount := count_le_of_charsContains 'z' hcc
    rw [hresdata] at hcount
    have hz : List.count 'z'
        "(Timed out after 60 minutes — partial response below)\n\n".data = 0 := by decide
    rw [List.count_append, hz] at hcount
    have hpat : List.count 'z' c4Frag.data = 3801 := by
      show List.count 'z' (List.replicate 3801 'z') = 3801
      exact List.count_replicate_self 'z' 3801
    rw [hpat, List.count_replicate_self] at hcount
    omega
  unfold strIncludes
  exact Bool.eq_false_iff.mpr hnotc

/-- Witness for `c4_timeout_partial_result`: the spec's acceptance run, a
timed-out subprocess that had emitted the free text "working on it". -/
def c4WitnessLines : List (StreamLine Unit) :=
  [StreamLine.assistantLine [ContentBlock.text "working on it"]]

theorem c4_timeout_partial_result_witness :
    (closeHandler c4Summarize "sid" true (some 0) "" c4WitnessLines).isError = true ∧
    strIncludes (closeHandler c4Summarize "sid" true (some 0) "" c4WitnessLines).result
      (strTake (parseLines c4Summarize "sid" c4WitnessLines).assistantText 3800) = true ∧
    strIncludes (closeHandler c4Summarize "sid" true (some 0) "" c4WitnessLines).result
      "Timed out after 60 minutes" = true := by
  have h := c4_timeout_partial_result c4Summarize "sid" (some 0) "" c4WitnessLines rfl
  exact ⟨h.1, (h.2.1 (by decide)).2.1, (h.2.1 (by decide)).2.2⟩

/-! ### Session store (`src/session.ts`) -/

/-- One persisted session record (`SessionState` in `src/session.ts`). -/
structure SessionState where
  sessionId : String
  createdAt : String
  messageCount : Nat
  topicName : Option String := none
deriving DecidableEq

/-- The on-disk sessions directory: one record per topic id; `none` models an
absent or unreadable file (`loadState` returns `null` on any read failure). -/
def SessionsDir : Type := String → Option SessionState

/-- Models `saveState` (`src/session.ts` 39–42): write `topicId`'s file. -/
def saveState (dir : SessionsDir) (topicId : String) (state : SessionState) : SessionsDir :=
  fun t => if t = topicId then some state else dir t

/-- Models `getOrCreateSession` (`src/session.ts` 44–67).  `legacy` is the
content of the legacy single-session file (read only for the "general"
topic); `freshId` models `crypto.randomUUID()` and `now` the creation
timestamp of this call.  Returns the session together with the updated
directory. -/
def getOrCreateSession (legacy : Option SessionState) (freshId now : String)
    (dir : SessionsDir) (topicId : String) : SessionState × SessionsDir :=
  match dir topicId with
  | some existing => (existing, dir)
  | none =>
    match (if topicId = "general" then legacy else none) with
    | some legacyState => (legacyState, saveState dir topicId legacyState)
    | none =>
      let state : SessionState :=
        { sessionId := freshId, createdAt := now, messageCount := 0 }
      (state, saveState dir topicId state)

/-- Models `newSession` (`src/session.ts` 69–77). -/
def newSession (freshId now : String) (dir : SessionsDir) (topicId : String) :
    SessionState × SessionsDir :=
  let state : SessionState :=
    { sessionId := freshId, createdAt := now, messageCount := 0 }
  (state, saveState dir topicId state)

/-- Models `incrementMessage` (`src/session.ts` 79–84). -/
def incrementMessage (legacy : Option SessionState) (freshId now : String)
    (dir : SessionsDir) (topicId : String) : SessionState × SessionsDir :=
  let r := getOrCreateSession legacy freshId now dir topicId
  let state := { r.1 with messageCount := r.1.messageCount + 1 }
  (state, saveState r.2 topicId state)

/-- Models the per-turn session bookkeeping of the queued task in the bot's
message handler: `if (!claudeResult.isError) { ...; incrementMessage(topicId); }`
(`src/bot.ts` 133–136 and the group-mode handler). -/
def recordOutcome (legacy : Option SessionState) (freshId now : String)
    (dir : SessionsDir) (topicId : String) (isError : Bool) : SessionsDir :=
  if isError then dir else (incrementMessage legacy freshId now dir topicId).2

theorem getOrCreateSession_of_present {dir : SessionsDir} {k : String}
    {s : SessionState} (hs : dir k = some s) (legacy : Option SessionState)
    (f n : String) : getOrCreateSession legacy f n dir k = (s, dir) := by
  unfold getOrCreateSession
  rw [hs]

theorem getOrCreateSession_persists (legacy : Option SessionState)
    (f n : String) (dir : SessionsDir) (k : String) :
    (getOrCreateSession legacy f n dir k).2 k
      = some (getOrCreateSession legacy f n dir k).1 := by
  unfold getOrCreateSession
  cases hd : dir k with
  | some s => exact hd
  | none =>
    cases hl : (if k = "general" then legacy else none) with
    | some l => simp [saveState]
    | none => simp [saveState]

/-- C5: the queued task increments the persisted `messageCount` exactly when
the invocation result is non-error; on an error result (timeout, spawn error,
error flag from the final record) the directory is untouched.  Counts are
naturals, hence never negative. -/
theorem c5_messageCount_syncs_with_success (legacy : Option SessionState)
    (freshId now : String) (dir : SessionsDir) (topicId : String) :
    recordOutcome legacy freshId now dir topicId true = dir ∧
    (∀ s, dir topicId = some s →
      recordOutcome legacy freshId now dir topicId false topicId
        = some { s with messageCount := s.messageCount + 1 }) ∧
    (∀ s, recordOutcome legacy freshId now dir topicId false topicId = some s →
      0 ≤ s.messageCount) := by
  refine ⟨rfl, fun s hs => ?_, fun s _ => Nat.zero_le _⟩
  unfold recordOutcome incrementMessage
  rw [if_neg (by simp)]
  rw [getOrCreateSession_of_present hs]
  simp [saveState]

/-- Witness directory for the session-store theorems. -/
def c5Dir : SessionsDir :=
  fun t => if t = "general" then some ⟨"id0", "t0", 3, none⟩ else none

theorem c5_messageCount_syncs_with_success_witness :
    recordOutcome none "f1" "t1" c5Dir "general" true = c5Dir ∧
    recordOutcome none "f1" "t1" c5Dir "general" false "general"
      = some ⟨"id0", "t0", 4, none⟩ := by
  have h := c5_messageCount_syncs_with_success none "f1" "t1" c5Dir "general"
  exact ⟨h.1, h.2.1 ⟨"id0", "t0", 3, none⟩ (by decide)⟩

/-- C6: `getOrCreate` is stable — called twice in sequence for the same key
with no reset in between it returns the same `sessionId` both times — and on
a key with no session (no per-key record, and no legacy record if the key is
the designated "general" one) it creates a session with the fresh id and
zero message count and persists it before returning. -/
theorem c6_getOrCreate_stable_and_creates (legacy : Option SessionState)
    (f1 n1 f2 n2 : String) (dir : SessionsDir) (k : String) :
    (getOrCreateSession legacy f2 n2 (getOrCreateSession legacy f1 n1 dir k).2 k).1.sessionId
      = (getOrCreateSession legacy f1 n1 dir k).1.sessionId ∧
    (dir k = none → (k = "general" → legacy = none) →
      (getOrCreateSession legacy f1 n1 dir k).1
          = { sessionId := f1, createdAt := n1, messageCount := 0 } ∧
      (getOrCreateSession legacy f1 n1 dir k).2 k
          = some ((getOrCreateSession legacy f1 n1 dir k).1)) := by
  constructor
  · rw [getOrCreateSession_of_present (getOrCreateSession_persists legacy f1 n1 dir k)]
  · intro h1 h2
    have hleg : (if k = "general" then legacy else none) = none := by
      split
      · exact h2 ‹_›
      · rfl
    refine ⟨?_, getOrCreateSession_persists legacy f1 n1 dir k⟩
    unfold getOrCreateSession
    rw [h1, hleg]

theorem c6_getOrCreate_stable_and_creates_witness :
    (getOrCreateSession none "f2" "n2"
        (getOrCreateSession none "f1" "n1" (fun _ => none) "42").2 "42").1.sessionId
      = (getOrCreateSession none "f1" "n1" (fun _ => none) "42").1.sessionId ∧
    (getOrCreateSession none "f1" "n1" (fun _ => none) "42").1
      = { sessionId := "f1", createdAt := "n1", messageCount := 0 } ∧
    (getOrCreateSession none "f1" "n1" (fun _ => none) "42").2 "42"
      = some ((getOrCreateSession none "f1" "n1" (fun _ => none) "42").1) := by
  have h := c6_getOrCreate_stable_and_creates none "f1" "n1" "f2" "n2" (fun _ => none) "42"
  exact ⟨h.1, h.2 rfl (fun _ => rfl)⟩

/-- C7: `newSession` (the `/new` reset) replaces the key's session with a
fresh zero-count one, persisted under the key; every other key's record is
untouched; and, provided the fresh id differs from the old session's id (as
a fresh UUID does), the stored `sessionId` for the key changes. -/
theorem c7_reset_fresh_and_frame (f n : String) (dir : SessionsDir) (k : String) :
    (newSession f n dir k).1
        = { sessionId := f, createdAt := n, messageCount := 0 } ∧
    (newSession f n dir k).2 k = some ((newSession f n dir k).1) ∧
    (∀ k', k' ≠ k → (newSession f n dir k).2 k' = dir k') ∧
    (∀ old, dir k = some old → f ≠ old.sessionId →
      (newSession f n dir k).1.sessionId ≠ old.sessionId) := by
  refine ⟨rfl, by simp [newSession, saveState], fun k' hk => ?_, fun old _ hf => hf⟩
  simp [newSession, saveState, hk]

theorem c7_reset_fresh_and_frame_witness :
    (newSession "fresh" "now" c5Dir "general").1
        = { sessionId := "fresh", createdAt := "now", messageCount := 0 } ∧
    (newSession "fresh" "now" c5Dir "general").2 "general"
        = some ((newSession "fresh" "now" c5Dir "general").1) ∧
    (newSession "fresh" "now" c5Dir "general").2 "other" = c5Dir "other" ∧
    (newSession "fresh" "now" c5Dir "general").1.sessionId ≠ "id0" := by
  have h := c7_reset_fresh_and_frame "fresh" "now" c5Dir "general"
  exact ⟨h.1, h.2.1, h.2.2.1 "other" (by decide),
    h.2.2.2 ⟨"id0", "t0", 3, none⟩ (by decide) (by decide)⟩

/-! ### Keyed task queue (`src/queue.ts`, `processQueue`/`enqueue`) -/

/-- The scheduler state of the per-topic queue module.  `queues` holds the
pending task ids per key (`queues` map in the source; an absent key and an
empty array are indistinguishable for the properties below); `active` the
tasks currently being awaited, with their key — a key is in the source's
`processing` set exactly while it has such a task or is picking the next
one.  `submitted` and `completed` are history variables recording, per key,
the order of `enqueue` calls and of task completions. -/
structure QState where
  queues : String → List Nat
  active : List (String × Nat)
  submitted : String → List Nat
  completed : String → List Nat

/-- The state before any `enqueue`. -/
def initQ : QState :=
  { queues := fun _ => [], active := [], submitted := fun _ => [],
    completed := fun _ => [] }

/-- Pointwise update of a per-key map. -/
def updQ (f : String → List Nat) (k : String) (v : List Nat) : String → List Nat :=
  fun k' => if k' = k then v else f k'

/-- One scheduler transition of the queue module:
`enqueue` pushes a task onto its key's FIFO (`enqueue`, `src/queue.ts`
98–106); `start` lets the key's drain loop shift the head task and begin
awaiting it, which `processQueue`'s `processing.has(topicId)` guard allows
only while no task of that key is being awaited (`src/queue.ts` 76–89);
`finish` completes the task being awaited for its key. -/
inductive QStep : QState → QState → Prop where
  | enqueue (s : QState) (k : String) (t : Nat) :
      QStep s { s with
        queues := updQ s.queues k (s.queues k ++ [t]),
        submitted := updQ s.submitted k (s.submitted k ++ [t]) }
  | start (s : QState) (k : String) (t : Nat) (rest : List Nat)
      (hq : s.queues k = t :: rest)
      (hni : ∀ t', (k, t') ∉ s.active) :
      QStep s { s with
        queues := updQ s.queues k rest,
        active := (k, t) :: s.active }
  | finish (s : QState) (k : String) (t : Nat) (l₁ l₂ : List (String × Nat))
      (ha : s.active = l₁ ++ (k, t) :: l₂) :
      QStep s { s with
        active := l₁ ++ l₂,
        completed := updQ s.completed k (s.completed k ++ [t]) }

/-- The states the queue module can reach from startup. -/
inductive QReach : QState → Prop where
  | init : QReach initQ
  | step {s s' : QState} : QReach s → QStep s s' → QReach s'

/-- The tasks of key `k` currently being awaited, in order. -/
def activeOf (s : QState) (k : String) : List Nat :=
  (s.active.filter fun p => p.1 == k).map (·.2)

/-- The per-key scheduling invariant: the submission history of every key
splits into its completion history, then its in-flight tasks, then its
pending FIFO; and at most one task per key is in flight. -/
def QInv (s : QState) : Prop :=
  ∀ k, s.submitted k = s.completed k ++ activeOf s k ++ s.queues k ∧
    (activeOf s k).length ≤ 1

theorem filter_key_eq_nil {k : String} {A : List (String × Nat)}
    (hni : ∀ t', (k, t') ∉ A) : A.filter (fun p => p.1 == k) = [] := by
  induction A with
  | nil => rfl
  | cons p rest ih =>
    have hp : (p.1 == k) = false := by
      rcases p with ⟨k₁, t₁⟩
      by_cases hk : k₁ = k
      · subst hk
        exact absurd (List.mem_cons_self _ _) (hni t₁)
      · simp [hk]
    simp only [List.filter_cons, hp]
    exact ih fun t' ht => hni t' (List.mem_cons_of_mem _ ht)

theorem qinv_init : QInv initQ := by
  intro k
  exact ⟨rfl, by simp [activeOf, initQ]⟩

theorem qinv_step {s s' : QState} (hinv : QInv s) (hstep : QStep s s') : QInv s' := by
  cases hstep with
  | enqueue k t =>
    intro k'
    obtain ⟨heq, hle⟩ := hinv k'
    by_cases hk : k' = k
    · subst hk
      refine ⟨?_, hle⟩
      simp only [activeOf, updQ, if_pos rfl]
      rw [heq]
      simp [activeOf]
    · exact ⟨by simpa [updQ, hk] using heq, hle⟩
  | start k t rest hq hni =>
    intro k'
    obtain ⟨heq, hle⟩ := hinv k'
    by_cases hk : k' = k
    · subst hk
      have hfil : s.active.filter (fun p => p.1 == k') = [] := filter_key_eq_nil hni
      constructor
      · simp only [activeOf, updQ, if_pos rfl, List.filter_cons, beq_self_eq_true,
          if_pos, hfil]
        rw [heq, hq]
        simp [activeOf, hfil]
      · simp [activeOf, List.filter_cons, hfil]
    · have hne : ((k, t).1 == k') = false := by simp [Ne.symm hk]
      constructor
      · simpa [activeOf, updQ, hk, List.filter_cons, hne] using heq
      · simpa [activeOf, List.filter_cons, hne] using hle
  | finish k t l₁ l₂ ha =>
    intro k'
    obtain ⟨heq, hle⟩ := hinv k'
    by_cases hk : k' = k
    · subst hk
      have h1 : l₁.filter (fun p => p.1 == k') = []
          ∧ l₂.filter (fun p => p.1 == k') = [] := by
        have hlen := hle
        unfold activeOf at hlen
        rw [ha] at hlen
        simp [List.filter_append, List.filter_cons] at hlen
        constructor
        · have h0 : (l₁.filter (fun p => p.1 == k')).length = 0 := by omega
          exact List.eq_nil_of_length_eq_zero h0
        · have h0 : (l₂.filter (fun p => p.1 == k')).length = 0 := by omega
          exact List.eq_nil_of_length_eq_zero h0
      have hact : activeOf s k' = [t] := by
        simp [activeOf, ha, List.filter_append, List.filter_cons, h1.1, h1.2]
      constructor
      · simp only [activeOf, updQ, if_pos rfl, List.filter_append, h1.1, h1.2]
        rw [heq, hact]
        simp
      · simp [activeOf, List.filter_append, h1.1, h1.2]
    · have hne : ((k, t).1 == k') = false := by simp [Ne.symm hk]
      have hfil : (l₁ ++ l₂).filter (fun p => p.1 == k')
          = s.active.filter (fun p => p.1 == k') := by
        rw [ha]
        simp [List.filter_append, List.filter_cons, hne]
      constructor
      · simpa [activeOf, updQ, hk, hfil] using heq
      · simpa [activeOf, hfil] using hle
  
theorem qinv_reach {s : QState} (h : QReach s) : QInv s := by
  induction h with
  | init => exact qinv_init
  | step _ hstep ih => exact qinv_step ih hstep

/-- C1: per key at most one task is ever in flight and the completion history
is always an initial segment of the submission history (same-key tasks never
run concurrently and complete in submission order), while tasks of two
distinct keys can be in flight simultaneously (witnessed by a reachable
schedule). -/
theorem c1_keyed_queue_serial_per_key_concurrent_across :
    (∀ s, QReach s → ∀ k, (activeOf s k).length ≤ 1) ∧
    (∀ s, QReach s → ∀ k, ∃ rest, s.completed k ++ rest = s.submitted k) ∧
    (∀ k1 k2, k1 ≠ k2 → ∃ s, QReach s ∧ ∃ t1 t2,
      (k1, t1) ∈ s.active ∧ (k2, t2) ∈ s.active) := by
  refine ⟨fun s hs k => (qinv_reach hs k).2,
    fun s hs k => ⟨activeOf s k ++ s.queues k, ?_⟩,
    fun k1 k2 hne => ?_⟩
  · rw [(qinv_reach hs k).1]
    simp
  · refine ⟨_, QReach.step (QReach.step (QReach.step (QReach.step QReach.init
        (QStep.enqueue initQ k1 0)) (QStep.enqueue _ k2 1))
        (QStep.start _ k1 0 [] ?_ ?_)) (QStep.start _ k2 1 [] ?_ ?_),
      0, 1, ?_, ?_⟩
    · simp [updQ, initQ, hne]
    · intro t'
      simp [initQ]
    · simp [updQ, initQ, hne, Ne.symm hne]
    · intro t' h
      simp [initQ] at h
      exact hne h.1.symm
    · simp [initQ]
    · simp [initQ]

theorem c1_keyed_queue_serial_per_key_concurrent_across_witness :
    (activeOf initQ "a").length ≤ 1 ∧
    (∃ rest, initQ.completed "a" ++ rest = initQ.submitted "a") ∧
    (∃ s, QReach s ∧ ∃ t1 t2, ("a", t1) ∈ s.active ∧ ("b", t2) ∈ s.active) := by
  have h := c1_keyed_queue_serial_per_key_concurrent_across
  exact ⟨h.1 initQ QReach.init "a", h.2.1 initQ QReach.init "a",
    h.2.2 "a" "b" (by decide)⟩

/-! ### `splitMessage` (`src/bot.ts` 17–33) -/

/-- The Telegram message length cap used by `splitMessage`. -/
def TELEGRAM_MAX_LENGTH : Nat := 4096

/-- Models `remaining.lastIndexOf("\n", limit)`: the largest index `≤ limit`
(and within the string) holding a newline, or `none` (JS `-1`). -/
def lastIndexOfNL (s : List Char) (limit : Nat) : Option Nat :=
  (List.range (min (limit + 1) s.length)).foldl
    (fun acc i => if s.getD i ' ' == '\n' then some i else acc) none

/-- The `splitAt` position chosen by one iteration of `splitMessage`'s loop:
the last newline within the cap when it lies past the halfway point
(`lastNewline > TELEGRAM_MAX_LENGTH * 0.5`), else the cap itself. -/
def splitAtOf (remaining : List Char) : Nat :=
  match lastIndexOfNL remaining TELEGRAM_MAX_LENGTH with
  | some i => if 2048 < i then i else TELEGRAM_MAX_LENGTH
  | none => TELEGRAM_MAX_LENGTH

theorem lastIndexOfNL_le (s : List Char) (limit : Nat) {i : Nat}
    (h : lastIndexOfNL s limit = some i) : i ≤ limit := by
  have key : ∀ (l : List Nat) (acc : Option Nat),
      (∀ j ∈ l, j ≤ limit) → (∀ j, acc = some j → j ≤ limit) →
      ∀ j, l.foldl (fun acc i => if s.getD i ' ' == '\n' then some i else acc) acc
        = some j → j ≤ limit := by
    intro l
    induction l with
    | nil => exact fun acc _ hacc j hj => hacc j hj
    | cons x xs ih =>
      intro acc hl hacc j hj
      refine ih _ (fun j' hj' => hl j' (List.mem_cons_of_mem _ hj')) ?_ j hj
      intro j' hj'
      dsimp only at hj'
      split at hj'
      · injection hj' with hx
        exact hx ▸ hl x (List.mem_cons_self _ _)
      · exact hacc j' hj'
  refine key _ none (fun j hj => ?_) (fun j hj => by cases hj) i h
  have := List.mem_range.mp hj
  omega

theorem splitAtOf_pos (remaining : List Char) : 0 < splitAtOf remaining := by
  unfold splitAtOf
  cases h : lastIndexOfNL remaining TELEGRAM_MAX_LENGTH with
  | none => norm_num [TELEGRAM_MAX_LENGTH]
  | some i =>
    dsimp only
    split
    · omega
    · norm_num [TELEGRAM_MAX_LENGTH]

theorem splitAtOf_le (remaining : List Char) :
    splitAtOf remaining ≤ TELEGRAM_MAX_LENGTH := by
  unfold splitAtOf
  cases h : lastIndexOfNL remaining TELEGRAM_MAX_LENGTH with
  | none => exact Nat.le_refl _
  | some i =>
    dsimp only
    split
    · exact lastIndexOfNL_le remaining TELEGRAM_MAX_LENGTH h
    · exact Nat.le_refl _

/-- The `while (remaining.length > 0)` loop of `splitMessage`. -/
def splitLoop (remaining : List Char) : List (List Char) :=
  if h : remaining.length = 0 then []
  else
    remaining.take (splitAtOf remaining) :: splitLoop (remaining.drop (splitAtOf remaining))
termination_by remaining.length
decreasing_by
  simp_wf
  exact ⟨Nat.pos_of_ne_zero h, splitAtOf_pos remaining⟩

/-- Models `splitMessage` (`src/bot.ts` 17–33). -/
def splitMessage (text : String) : List String :=
  if text.data.length ≤ TELEGRAM_MAX_LENGTH then [text]
  else (splitLoop text.data).map String.mk

theorem splitLoop_flatten_bounded :
    ∀ (n : Nat) (remaining : List Char), remaining.length ≤ n →
      (splitLoop remaining).flatten = remaining := by
  intro n
  induction n with
  | zero =>
    intro r hr
    have h0 : r.length = 0 := Nat.le_zero.mp hr
    unfold splitLoop
    rw [dif_pos h0]
    exact (List.eq_nil_of_length_eq_zero h0).symm
  | succ n ih =>
    intro r hr
    unfold splitLoop
    by_cases h0 : r.length = 0
    · rw [dif_pos h0]
      exact (List.eq_nil_of_length_eq_zero h0).symm
    · rw [dif_neg h0]
      have hpos := splitAtOf_pos r
      have hdrop : (r.drop (splitAtOf r)).length ≤ n := by
        rw [List.length_drop]
        omega
      rw [List.flatten_cons, ih _ hdrop, List.take_append_drop]

theorem splitLoop_flatten (remaining : List Char) :
    (splitLoop remaining).flatten = remaining :=
  splitLoop_flatten_bounded remaining.length remaining (Nat.le_refl _)

theorem splitLoop_chunk_le :
    ∀ (n : Nat) (remaining : List Char), remaining.length ≤ n →
      ∀ c ∈ splitLoop remaining, c.length ≤ TELEGRAM_MAX_LENGTH := by
  intro n
  induction n with
  | zero =>
    intro r hr c hc
    have h0 : r.length = 0 := Nat.le_zero.mp hr
    unfold splitLoop at hc
    rw [dif_pos h0] at hc
    cases hc
  | succ n ih =>
    intro r hr c hc
    unfold splitLoop at hc
    by_cases h0 : r.length = 0
    · rw [dif_pos h0] at hc
      cases hc
    · rw [dif_neg h0] at hc
      rcases List.mem_cons.mp hc with hhead | htail
      · subst hhead
        rw [List.length_take]
        exact le_trans (min_le_left _ _) (splitAtOf_le r)
      · have hpos := splitAtOf_pos r
        refine ih (r.drop (splitAtOf r)) ?_ c htail
        rw [List.length_drop]
        omega

theorem join_map_mk (cs : List (List Char)) :
    String.join (cs.map String.mk) = String.mk cs.flatten := by
  have key : ∀ (cs : List (List Char)) (acc : List Char),
      List.foldl (· ++ ·) (String.mk acc) (cs.map String.mk)
        = String.mk (acc ++ cs.flatten) := by
    intro cs
    induction cs with
    | nil => intro acc; simp
    | cons c cst ih =>
      intro acc
      simp only [List.map_cons, List.foldl_cons]
      have hmk : String.mk acc ++ String.mk c = String.mk (acc ++ c) := rfl
      rw [hmk, ih]
      exact congrArg String.mk (by simp)
  have h0 : ("" : String) = String.mk [] := rfl
  rw [String.join, h0, key cs []]
  exact congrArg String.mk (by simp)

/-- C9: `splitMessage` partitions its input: the chunks concatenate back to
the input in order, every chunk is at most 4096 characters, and an input of
at most 4096 characters comes back unchanged as a one-element list. -/
theorem c9_splitMessage_reassembles_and_caps :
    (∀ text : String, String.join (splitMessage text) = text) ∧
    (∀ text : String, ∀ chunk ∈ splitMessage text, chunk.data.length ≤ 4096) ∧
    (∀ text : String, text.data.length ≤ 4096 → splitMessage text = [text]) := by
  refine ⟨fun text => ?_, fun text chunk hc => ?_, fun text h => ?_⟩
  · unfold splitMessage
    by_cases h : text.data.length ≤ TELEGRAM_MAX_LENGTH
    · rw [if_pos h]
      show ("" : String) ++ text = text
      apply String.ext
      rw [String.data_append]
      rfl
    · rw [if_neg h, join_map_mk, splitLoop_flatten]
  · unfold splitMessage at hc
    by_cases h : text.data.length ≤ TELEGRAM_MAX_LENGTH
    · rw [if_pos h] at hc
      rw [List.mem_singleton.mp hc]
      exact h
    · rw [if_neg h] at hc
      obtain ⟨c, hcmem, rfl⟩ := List.mem_map.mp hc
      exact splitLoop_chunk_le text.data.length text.data (Nat.le_refl _) c hcmem
  · have h' : text.data.length ≤ TELEGRAM_MAX_LENGTH := h
    rw [splitMessage, if_pos h']

theorem c9_splitMessage_reassembles_and_caps_witness :
    String.join (splitMessage "hello\nworld") = "hello\nworld" ∧
    "hello\nworld".data.length ≤ 4096 ∧
    splitMessage "hello\nworld" = ["hello\nworld"] := by
  have h := c9_splitMessage_reassembles_and_caps
  exact ⟨h.1 "hello\nworld",
    h.2.1 "hello\nworld" "hello\nworld" (by decide),
    h.2.2 "hello\nworld" (by decide)⟩

/-! ### Update-deduplication store (`isAlreadyProcessed` / `markProcessed`) -/

/-- The cap on stored processed update ids (`MAX_STORED` in the source). -/
def MAX_STORED : Nat := 200

/-- Models `markProcessed`: push the id, then keep only the most recent
`MAX_STORED` entries (`processedIds.slice(-MAX_STORED)`). -/
def markProcessed (processedIds : List Nat) (updateId : Nat) : List Nat :=
  let l := processedIds ++ [updateId]
  if MAX_STORED < l.length then l.drop (l.length - MAX_STORED) else l

/-- Models `isAlreadyProcessed`: `processedIds.includes(updateId)`. -/
def isAlreadyProcessed (processedIds : List Nat) (updateId : Nat) : Bool :=
  processedIds.contains updateId

theorem suffix_drop_of_le {l s : List Nat} {m : Nat} (hs : s <:+ l)
    (hlen : s.length ≤ m) : s <:+ l.drop (l.length - m) := by
  obtain ⟨a, rfl⟩ := hs
  rw [List.drop_append_eq_append_drop]
  have hk : (a ++ s).length - m ≤ a.length := by
    rw [List.length_append]
    omega
  have h0 : (a ++ s).length - m - a.length = 0 := by omega
  rw [h0, List.drop_zero]
  exact ⟨a.drop _, rfl⟩

theorem suffix_markProcessed {st s : List Nat} {v : Nat} (hs : s <:+ st ++ [v])
    (hlen : s.length ≤ MAX_STORED) : s <:+ markProcessed st v := by
  unfold markProcessed
  dsimp only
  split
  · exact suffix_drop_of_le hs hlen
  · exact hs

theorem mem_foldl_markProcessed (u : Nat) :
    ∀ (ns : List Nat) (st b : List Nat), (u :: b) <:+ st →
      b.length + ns.length < MAX_STORED → u ∈ ns.foldl markProcessed st := by
  intro ns
  induction ns with
  | nil =>
    intro st b hs _
    exact hs.subset (List.mem_cons_self _ _)
  | cons v vs ih =>
    intro st b hs hlen
    rw [List.foldl_cons]
    refine ih (markProcessed st v) (b ++ [v]) ?_ ?_
    · have h1 : (u :: (b ++ [v])) <:+ st ++ [v] := by
        obtain ⟨a, ha⟩ := hs
        refine ⟨a, ?_⟩
        rw [← ha]
        simp
      refine suffix_markProcessed h1 ?_
      simp only [List.length_cons, List.length_append, List.length_nil, MAX_STORED]
      simp [MAX_STORED] at hlen
      omega
    · simp at hlen ⊢
      omega

/-- C10: the dedup store is bounded and sound: the persisted list never
exceeds 200 entries; right after `markProcessed(u)` the id `u` is reported
processed; it is still reported processed after any fewer than 200 further
`markProcessed` calls; and what is kept is always a tail segment (the most
recent entries) of the pushed history. -/
theorem c10_dedup_bounded_and_sound :
    (∀ st u, (markProcessed st u).length ≤ 200) ∧
    (∀ st u, isAlreadyProcessed (markProcessed st u) u = true) ∧
    (∀ st u (ns : List Nat), ns.length < 200 →
      isAlreadyProcessed (ns.foldl markProcessed (markProcessed st u)) u = true) ∧
    (∀ st u, ∃ d, markProcessed st u = (st ++ [u]).drop d) := by
  have hu : ∀ st u, [u] <:+ markProcessed st u := by
    intro st u
    refine suffix_markProcessed ⟨st, rfl⟩ ?_
    simp [MAX_STORED]
  refine ⟨fun st u => ?_, fun st u => ?_, fun st u ns hns => ?_, fun st u => ?_⟩
  · unfold markProcessed
    dsimp only
    split
    · rw [List.length_drop]
      simp only [MAX_STORED]
      omega
    · simp only [MAX_STORED] at *
      omega
  · exact List.elem_eq_true_of_mem ((hu st u).subset (List.mem_cons_self _ _))
  · refine List.elem_eq_true_of_mem
      (mem_foldl_markProcessed u ns (markProcessed st u) [] (hu st u) ?_)
    simpa [MAX_STORED] using hns
  · unfold markProcessed
    dsimp only
    split
    · exact ⟨_, rfl⟩
    · exact ⟨0, rfl⟩

theorem c10_dedup_bounded_and_sound_witness :
    (markProcessed [1, 2] 7).length ≤ 200 ∧
    isAlreadyProcessed (markProcessed [1, 2] 7) 7 = true ∧
    isAlreadyProcessed (List.foldl markProcessed (markProcessed [1, 2] 7) [8, 9]) 7
      = true ∧
    (∃ d, markProcessed [1, 2] 7 = ([1, 2] ++ [7]).drop d) := by
  have h := c10_dedup_bounded_and_sound
  exact ⟨h.1 [1, 2] 7, h.2.1 [1, 2] 7, h.2.2.1 [1, 2] 7 [8, 9] (by decide),
    h.2.2.2 [1, 2] 7⟩
